import Mathlib

set_option linter.unusedSectionVars false

/-!
Verification of the ECS (entity/component storage engine) of the qsi
repository, shallowly embedded from `src/ecs/mod.rs`, together with the
`physics_system` of `examples/basic_grid.rs` and the `Transform` and
`Velocity` components of `src/math/mod.rs`.

Modelling conventions:
* `EntityId = u32` is modelled as `Nat`; the increment `next_entity_id += 1`
  is taken modulo `2^32` (release-mode wrapping semantics of Rust).
* `std::collections::HashMap` is modelled as an association list with the
  operations `mapGet`, `mapInsert`, `mapRemove`.  The `HashMap` interface
  guarantees at most one entry per key and an unspecified iteration order;
  the association-list model realises one such order.  Key uniqueness of a
  table is not baked into the type: it is stated as the invariant
  `TablesNodup` and proved to hold in every reachable world.
* The `components: HashMap<TypeId, Box<dyn Any + Send + Sync>>` field is
  modelled generically: a kind type `κ` (the `TypeId`s) with a value family
  `V : κ → Type` (the component type tagged by each `TypeId`), and boxes
  `Σ k, Table (V k)` recording their dynamic type, so that the
  `downcast_ref`/`downcast_mut` calls of the source are modelled faithfully
  (they can fail on a tag mismatch, and `add_component` silently drops the
  inserted value in that case, exactly as the source's `if let Some` does).
-/

namespace Qsi

/-- 2^32: `EntityId` is `u32` in the source; arithmetic wraps at this bound. -/
def U32 : Nat := 2 ^ 32

/-- `pub type EntityId = u32;` (values are kept below `U32` by the ops). -/
abbrev EntityId := Nat

section AssocMap

variable {β : Type} [DecidableEq β] {α : Type}

/-- Model of `HashMap::get`: the value at the first entry whose key is `b`. -/
def mapGet (b : β) : List (β × α) → Option α
  | [] => none
  | (b', a) :: rest => if b' = b then some a else mapGet b rest

/-- Model of `HashMap::insert`: replace the value at the first entry whose
key is `b`, or append a fresh entry if no entry has key `b`. -/
def mapInsert (b : β) (a : α) : List (β × α) → List (β × α)
  | [] => [(b, a)]
  | (b', a') :: rest =>
    if b' = b then (b, a) :: rest else (b', a') :: mapInsert b a rest

/-- Model of `HashMap::remove`: drop the first entry whose key is `b` and
return its value together with the remaining list. -/
def mapRemove (b : β) : List (β × α) → Option α × List (β × α)
  | [] => (none, [])
  | (b', a) :: rest =>
    if b' = b then (some a, rest)
    else
      let r := mapRemove b rest
      (r.1, (b', a) :: r.2)

end AssocMap

section ECS

variable {κ : Type} [DecidableEq κ] {V : κ → Type}

/-- A dynamically-typed storage box `Box<dyn Any + Send + Sync>` holding a
`HashMap<EntityId, T>` for some component type `T = V k`: the first
component is the dynamic type tag, the second the table. -/
abbrev AnyTable (κ : Type) (V : κ → Type) : Type := Σ k : κ, List (EntityId × V k)

/-- Model of `Box::downcast_ref::<HashMap<EntityId, T>>` (and of
`downcast_mut`): succeeds exactly when the dynamic tag matches. -/
def downcast (k : κ) (box : AnyTable κ V) : Option (List (EntityId × V k)) :=
  if h : box.1 = k then some (h ▸ box.2) else none

/-- The ECS `World` of `src/ecs/mod.rs`:
`next_entity_id: EntityId`, `entities: Vec<EntityId>`,
`components: HashMap<TypeId, Box<dyn Any + Send + Sync>>`. -/
structure World (κ : Type) (V : κ → Type) where
  next_entity_id : EntityId
  entities : List EntityId
  components : List (κ × AnyTable κ V)

namespace World

variable {κ : Type} [DecidableEq κ] {V : κ → Type}

/-- `World::new` -/
def new : World κ V :=
  { next_entity_id := 0, entities := [], components := [] }

/-- `World::create_entity`: returns the fresh id and the updated world.
`self.next_entity_id += 1` on a `u32` wraps modulo `2^32`. -/
def create_entity (w : World κ V) : EntityId × World κ V :=
  let id := w.next_entity_id
  (id, { w with next_entity_id := (id + 1) % U32, entities := w.entities ++ [id] })

/-- `World::add_component`: materialise the entry for the kind's `TypeId`
(`entry(type_id).or_insert_with(|| Box::new(HashMap::new()))`), then
downcast and insert; on a failed downcast the value is silently dropped
(the `if let Some` of the source has no else branch). -/
def add_component (k : κ) (entity : EntityId) (component : V k) (w : World κ V) :
    World κ V :=
  let box := (mapGet k w.components).getD ⟨k, []⟩
  match downcast k box with
  | some storage =>
      { w with components := mapInsert k ⟨k, mapInsert entity component storage⟩ w.components }
  | none =>
      { w with components := mapInsert k box w.components }

/-- `World::get_component`:
`self.components.get(&type_id)?.downcast_ref::<HashMap<EntityId, T>>()?.get(&entity)`. -/
def get_component (k : κ) (entity : EntityId) (w : World κ V) : Option (V k) :=
  (mapGet k w.components).bind fun box =>
    (downcast k box).bind fun storage => mapGet entity storage

/-- `World::get_component_mut`: the lookup path is identical to
`get_component` (with `get_mut`/`downcast_mut`); in the pure model the
located value itself is returned. -/
def get_component_mut (k : κ) (entity : EntityId) (w : World κ V) : Option (V k) :=
  (mapGet k w.components).bind fun box =>
    (downcast k box).bind fun storage => mapGet entity storage

/-- `World::remove_component`: returns the removed value (if any) and the
updated world; a missing kind or a failed downcast leaves the world
untouched (the `?` operator returns early). -/
def remove_component (k : κ) (entity : EntityId) (w : World κ V) :
    Option (V k) × World κ V :=
  match mapGet k w.components with
  | none => (none, w)
  | some box =>
    match downcast k box with
    | none => (none, w)
    | some storage =>
      let r := mapRemove entity storage
      (r.1, { w with components := mapInsert k ⟨k, r.2⟩ w.components })

/-- `World::query`: the sequence of `(entity, value)` pairs of the kind's
table, empty when the table is absent or the downcast fails
(`.into_iter().flatten()` of an `Option`). -/
def query (k : κ) (w : World κ V) : List (EntityId × V k) :=
  ((mapGet k w.components).bind (downcast k)).getD []

/-- `World::query_mut`: iterates the same table as `query` (with
`get_mut`/`downcast_mut`/`iter_mut` in the source). -/
def query_mut (k : κ) (w : World κ V) : List (EntityId × V k) :=
  ((mapGet k w.components).bind (downcast k)).getD []

/-- `World::has_component`: `self.get_component::<T>(entity).is_some()`. -/
def has_component (k : κ) (entity : EntityId) (w : World κ V) : Bool :=
  (w.get_component k entity).isSome

/-- `World::despawn`: `self.entities.retain(|&e| e != entity)`; the loop
over the component storages has an empty body (orphaned entries are
deliberately left behind). -/
def despawn (entity : EntityId) (w : World κ V) : World κ V :=
  { w with entities := w.entities.filter fun e => e ≠ entity }

end World

/-- `EntityBuilder`: in the source it borrows the world mutably; the model
carries the world value alongside the bound entity id. -/
structure EntityBuilder (κ : Type) (V : κ → Type) where
  world : World κ V
  entity : EntityId

namespace World

variable {κ : Type} [DecidableEq κ] {V : κ → Type}

/-- `World::spawn`: `let id = self.create_entity(); EntityBuilder { world: self, entity: id }`. -/
def spawn (w : World κ V) : EntityBuilder κ V :=
  let r := w.create_entity
  { world := r.2, entity := r.1 }

end World

namespace EntityBuilder

variable {κ : Type} [DecidableEq κ] {V : κ → Type}

/-- `EntityBuilder::with`: `self.world.add_component(self.entity, component); self`. -/
def with' (b : EntityBuilder κ V) (k : κ) (component : V k) : EntityBuilder κ V :=
  { b with world := b.world.add_component k b.entity component }

/-- `EntityBuilder::id` -/
def id (b : EntityBuilder κ V) : EntityId := b.entity

/-- `EntityBuilder::build`: returns the bound entity; no further work. -/
def build (b : EntityBuilder κ V) : EntityId := b.entity

end EntityBuilder

/-- The type-safety invariant of the storage map: the dynamic tag of every
stored box equals the `TypeId` key it is stored under (so every `downcast`
in the engine succeeds).  This is what the Rust code relies on but cannot
express in the type of `components`. -/
def WellTagged (w : World κ V) : Prop :=
  ∀ p ∈ w.components, p.2.1 = p.1

/-- Per-kind tables have no duplicate entity keys (guaranteed by the
`HashMap` interface in the source; stated as an invariant over the
association-list model). -/
def TablesNodup (w : World κ V) : Prop :=
  ∀ p ∈ w.components, (p.2.2.map Prod.fst).Nodup

/-- The state-mutating public operations of `World`, used to talk about
arbitrary interleavings of calls (the read-only operations `get_component`,
`has_component`, `query`, `entities` do not change the state; `spawn` and
`EntityBuilder::with`/`build` are compositions of `create_entity` and
`add_component` and are covered by those). -/
inductive Op (κ : Type) (V : κ → Type) where
  | create : Op κ V
  | add (k : κ) (e : EntityId) (v : V k) : Op κ V
  | remove (k : κ) (e : EntityId) : Op κ V
  | despawn (e : EntityId) : Op κ V

/-- The world reached by one operation. -/
def Op.step : Op κ V → World κ V → World κ V
  | .create, w => w.create_entity.2
  | .add k e v, w => w.add_component k e v
  | .remove k e, w => (w.remove_component k e).2
  | .despawn e, w => w.despawn e

/-- Run a sequence of operations, collecting the identifiers returned by
the `create_entity` calls in order. -/
def runOps : List (Op κ V) → World κ V → List EntityId × World κ V
  | [], w => ([], w)
  | Op.create :: ops, w =>
      let r := w.create_entity
      let rest := runOps ops r.2
      (r.1 :: rest.1, rest.2)
  | op :: ops, w => runOps ops (op.step w)

/-- Number of `create_entity` calls in an operation sequence. -/
def countCreates : List (Op κ V) → Nat
  | [] => 0
  | Op.create :: ops => countCreates ops + 1
  | _ :: ops => countCreates ops

/-- Whether an operation is an `add_component` call for the pair `(e, k)`. -/
def isAddTo (k : κ) (e : EntityId) : Op κ V → Bool
  | .add k' e' _ => decide (k' = k) && decide (e' = e)
  | _ => false

/-- The worlds reachable from `World::new` by the public operations. -/
inductive Reachable : World κ V → Prop where
  | new : Reachable World.new
  | create (w : World κ V) : Reachable w → Reachable w.create_entity.2
  | add (w : World κ V) (k : κ) (e : EntityId) (v : V k) :
      Reachable w → Reachable (w.add_component k e v)
  | remove (w : World κ V) (k : κ) (e : EntityId) :
      Reachable w → Reachable (w.remove_component k e).2
  | despawn (w : World κ V) (e : EntityId) :
      Reachable w → Reachable (w.despawn e)

end ECS

/-!
The `Transform` and `Velocity` components of `src/math/mod.rs` and the
`physics_system` of `examples/basic_grid.rs`.  `Vector3<f32>` is modelled
over `ℚ`: every value appearing in the verified scenario (0, 1, 0.5) is
exactly representable in `f32` and the scenario's arithmetic
(0 + 1 * 0.5) incurs no rounding, so rational arithmetic agrees with the
`f32` computation there.
-/

/-- `cgmath::Vector3<f32>` (scalars modelled as `ℚ`, see above). -/
structure Vec3 where
  x : ℚ
  y : ℚ
  z : ℚ
deriving DecidableEq

/-- Componentwise vector addition (`Vector3 + Vector3`). -/
def Vec3.add (a b : Vec3) : Vec3 :=
  ⟨a.x + b.x, a.y + b.y, a.z + b.z⟩

/-- Vector-times-scalar (`Vector3<f32> * f32` of cgmath). -/
def Vec3.mulScalar (a : Vec3) (c : ℚ) : Vec3 :=
  ⟨a.x * c, a.y * c, a.z * c⟩

/-- `Transform` component: position, rotation (Euler radians), scale. -/
structure Transform where
  position : Vec3
  rotation : Vec3
  scale : Vec3
deriving DecidableEq

/-- `impl Default for Transform`: zero position and rotation, unit scale. -/
def Transform.default : Transform :=
  ⟨⟨0, 0, 0⟩, ⟨0, 0, 0⟩, ⟨1, 1, 1⟩⟩

/-- `Velocity` component: linear and angular velocity. -/
structure Velocity where
  linear : Vec3
  angular : Vec3
deriving DecidableEq

/-- The component kinds (`TypeId`s) involved in the physics scenario. -/
inductive GKind where
  | transform
  | velocity
deriving DecidableEq

/-- The component type tagged by each kind. -/
def GVal : GKind → Type
  | .transform => Transform
  | .velocity => Velocity

instance (k : GKind) : DecidableEq (GVal k) :=
  match k with
  | .transform => (inferInstance : DecidableEq Transform)
  | .velocity => (inferInstance : DecidableEq Velocity)

/-- `physics_system` of `examples/basic_grid.rs`: iterate the `Velocity`
table; for each entity that also holds a `Transform`, record a clone with
`position += velocity.linear * dt` and `rotation += velocity.angular * dt`;
then apply all recorded updates in order via `add_component`. -/
def physics_system (dt : ℚ) (world : World GKind GVal) : World GKind GVal :=
  let updates := (world.query GKind.velocity).filterMap fun p =>
    (world.get_component GKind.transform p.1).map fun transform =>
      (p.1, { transform with
                position := transform.position.add (Vec3.mulScalar p.2.linear dt),
                rotation := transform.rotation.add (Vec3.mulScalar p.2.angular dt) })
  updates.foldl (fun w u => w.add_component GKind.transform u.1 u.2) world

/-! Lemmas about the association-map model. -/

section MapLemmas

variable {β : Type} [DecidableEq β] {α : Type}

theorem mapGet_mapInsert_self (b : β) (a : α) (l : List (β × α)) :
    mapGet b (mapInsert b a l) = some a := by
  induction l with
  | nil => simp [mapInsert, mapGet]
  | cons p rest ih =>
    obtain ⟨c, a'⟩ := p
    by_cases h : c = b
    · subst h; simp [mapInsert, mapGet]
    · simp [mapInsert, mapGet, h, ih]

theorem mapGet_mapInsert_ne (b b' : β) (a : α) (l : List (β × α)) (h : b' ≠ b) :
    mapGet b' (mapInsert b a l) = mapGet b' l := by
  induction l with
  | nil => simp [mapInsert, mapGet, Ne.symm h]
  | cons p rest ih =>
    obtain ⟨c, a'⟩ := p
    by_cases hc : c = b
    · subst hc
      simp [mapInsert, mapGet, Ne.symm h]
    · simp [mapInsert, mapGet, hc, ih]

theorem mapInsert_self (b : β) (a : α) (l : List (β × α)) (h : mapGet b l = some a) :
    mapInsert b a l = l := by
  induction l with
  | nil => simp [mapGet] at h
  | cons p rest ih =>
    obtain ⟨c, a'⟩ := p
    by_cases hc : c = b
    · subst hc
      simp only [mapGet, if_true, eq_self_iff_true, Option.some.injEq] at h
      subst h
      simp [mapInsert]
    · simp only [mapGet, if_neg hc] at h
      simp [mapInsert, hc, ih h]

theorem mem_mapInsert (b : β) (a : α) (l : List (β × α)) (p : β × α)
    (h : p ∈ mapInsert b a l) : p = (b, a) ∨ p ∈ l := by
  induction l with
  | nil => simpa [mapInsert] using h
  | cons q rest ih =>
    obtain ⟨c, a'⟩ := q
    by_cases hc : c = b
    · subst hc
      simp only [mapInsert, if_true, eq_self_iff_true, List.mem_cons] at h
      rcases h with hp | hp
      · exact Or.inl hp
      · exact Or.inr (List.mem_cons_of_mem _ hp)
    · simp only [mapInsert, if_neg hc, List.mem_cons] at h
      rcases h with hp | hp
      · exact Or.inr (by simp [hp])
      · rcases ih hp with hp' | hp'
        · exact Or.inl hp'
        · exact Or.inr (List.mem_cons_of_mem _ hp')

theorem keys_mapInsert (b : β) (a : α) (l : List (β × α)) :
    (mapInsert b a l).map Prod.fst =
      if b ∈ l.map Prod.fst then l.map Prod.fst else l.map Prod.fst ++ [b] := by
  induction l with
  | nil => simp [mapInsert]
  | cons p rest ih =>
    obtain ⟨c, a'⟩ := p
    by_cases hc : c = b
    · subst hc; simp [mapInsert]
    · by_cases hb : b ∈ rest.map Prod.fst
      · simp [mapInsert, hc, ih, hb, List.mem_cons, Ne.symm hc]
      · simp [mapInsert, hc, ih, hb, List.mem_cons, Ne.symm hc]

theorem nodup_keys_mapInsert (b : β) (a : α) (l : List (β × α))
    (h : (l.map Prod.fst).Nodup) : ((mapInsert b a l).map Prod.fst).Nodup := by
  rw [keys_mapInsert]
  split
  · exact h
  · next hb =>
      refine List.Nodup.append h (List.nodup_singleton b) ?_
      intro x hx hx'
      rcases List.mem_singleton.mp hx' with rfl
      exact hb hx

theorem mapRemove_fst (b : β) (l : List (β × α)) :
    (mapRemove b l).1 = mapGet b l := by
  induction l with
  | nil => rfl
  | cons p rest ih =>
    obtain ⟨c, a'⟩ := p
    by_cases hc : c = b
    · subst hc; simp [mapRemove, mapGet]
    · simp [mapRemove, mapGet, hc, ih]

theorem mapRemove_snd_sublist (b : β) (l : List (β × α)) :
    (mapRemove b l).2.Sublist l := by
  induction l with
  | nil => simp [mapRemove]
  | cons p rest ih =>
    obtain ⟨c, a'⟩ := p
    by_cases hc : c = b
    · subst hc; simp [mapRemove]
    · simpa [mapRemove, hc] using ih.cons₂ (c, a')

theorem mapGet_none_iff (b : β) (l : List (β × α)) :
    mapGet b l = none ↔ b ∉ l.map Prod.fst := by
  induction l with
  | nil => simp [mapGet]
  | cons p rest ih =>
    obtain ⟨c, a'⟩ := p
    by_cases hc : c = b
    · subst hc; simp [mapGet]
    · simp [mapGet, hc, ih, Ne.symm hc]

theorem mapGet_mapRemove_self (b : β) (l : List (β × α))
    (h : (l.map Prod.fst).Nodup) : mapGet b (mapRemove b l).2 = none := by
  induction l with
  | nil => simp [mapRemove, mapGet]
  | cons p rest ih =>
    obtain ⟨c, a'⟩ := p
    simp only [List.map_cons, List.nodup_cons] at h
    by_cases hc : c = b
    · subst hc
      simp only [mapRemove, if_pos rfl]
      exact (mapGet_none_iff _ _).mpr h.1
    · simp [mapRemove, mapGet, hc, ih h.2]

theorem mapGet_mapRemove_ne (b b' : β) (l : List (β × α)) (h : b' ≠ b) :
    mapGet b' (mapRemove b l).2 = mapGet b' l := by
  induction l with
  | nil => rfl
  | cons p rest ih =>
    obtain ⟨c, a'⟩ := p
    by_cases hc : c = b
    · subst hc
      simp [mapRemove, mapGet, Ne.symm h]
    · simp [mapRemove, mapGet, hc, ih]

theorem mem_of_mapGet_eq_some (b : β) (a : α) (l : List (β × α))
    (h : mapGet b l = some a) : (b, a) ∈ l := by
  induction l with
  | nil => simp [mapGet] at h
  | cons p rest ih =>
    obtain ⟨c, a'⟩ := p
    by_cases hc : c = b
    · subst hc
      simp only [mapGet, if_true, eq_self_iff_true, Option.some.injEq] at h
      simp [h]
    · simp only [mapGet, if_neg hc] at h
      exact List.mem_cons_of_mem _ (ih h)

theorem mapGet_eq_some_of_mem (b : β) (a : α) (l : List (β × α))
    (hnd : (l.map Prod.fst).Nodup) (h : (b, a) ∈ l) : mapGet b l = some a := by
  induction l with
  | nil => simp at h
  | cons p rest ih =>
    obtain ⟨c, a'⟩ := p
    simp only [List.map_cons, List.nodup_cons] at hnd
    rcases List.mem_cons.mp h with h | h
    · obtain ⟨rfl, rfl⟩ := Prod.mk.injEq .. ▸ h
      · simp [mapGet]
    · by_cases hc : c = b
      · subst hc
        exact absurd (List.mem_map_of_mem Prod.fst h) hnd.1
      · simp [mapGet, hc, ih hnd.2 h]

end MapLemmas

/-! Lemmas about `downcast` and the `World` operations. -/

section ECSLemmas

variable {κ : Type} [DecidableEq κ] {V : κ → Type}

theorem downcast_self (k : κ) (t : List (EntityId × V k)) :
    downcast k (⟨k, t⟩ : AnyTable κ V) = some t := by
  simp [downcast]

theorem downcast_eq_some (k : κ) (box : AnyTable κ V) (t : List (EntityId × V k))
    (h : downcast k box = some t) : box = ⟨k, t⟩ := by
  obtain ⟨kb, tb⟩ := box
  by_cases hk : kb = k
  · subst hk
    simp only [downcast_self, Option.some.injEq] at h
    simp [h]
  · simp [downcast, hk] at h

theorem downcast_eq_none (k : κ) (box : AnyTable κ V)
    (h : downcast k box = none) : box.1 ≠ k := by
  intro hk
  obtain ⟨kb, tb⟩ := box
  subst hk
  simp [downcast_self] at h

theorem create_entity_fst (w : World κ V) : w.create_entity.1 = w.next_entity_id := rfl

theorem create_entity_components (w : World κ V) :
    w.create_entity.2.components = w.components := rfl

theorem create_entity_entities (w : World κ V) :
    w.create_entity.2.entities = w.entities ++ [w.next_entity_id] := rfl

theorem create_entity_next (w : World κ V) :
    w.create_entity.2.next_entity_id = (w.next_entity_id + 1) % U32 := rfl

theorem get_component_create (k : κ) (e : EntityId) (w : World κ V) :
    w.create_entity.2.get_component k e = w.get_component k e := rfl

theorem despawn_components (e : EntityId) (w : World κ V) :
    (w.despawn e).components = w.components := rfl

theorem despawn_next (e : EntityId) (w : World κ V) :
    (w.despawn e).next_entity_id = w.next_entity_id := rfl

theorem get_component_despawn (k : κ) (e e' : EntityId) (w : World κ V) :
    (w.despawn e').get_component k e = w.get_component k e := rfl

/-- Case analysis of `add_component`: the kind's table exists and the
downcast succeeds; or the table is created fresh; or the downcast fails and
the world is unchanged (the inserted value is silently dropped). -/
theorem add_component_cases (k : κ) (e : EntityId) (v : V k) (w : World κ V) :
    (∃ t, mapGet k w.components = some (⟨k, t⟩ : AnyTable κ V) ∧
        w.add_component k e v =
          { w with components := mapInsert k ⟨k, mapInsert e v t⟩ w.components }) ∨
    (mapGet k w.components = none ∧
        w.add_component k e v =
          { w with components := mapInsert k ⟨k, [(e, v)]⟩ w.components }) ∨
    (∃ box, mapGet k w.components = some box ∧ box.1 ≠ k ∧
        w.add_component k e v = w) := by
  unfold World.add_component
  cases hm : mapGet k w.components with
  | none =>
    refine Or.inr (Or.inl ⟨rfl, ?_⟩)
    simp [Option.getD_none, downcast_self, mapInsert]
  | some box =>
    cases hd : downcast k box with
    | some t =>
      have hb := downcast_eq_some k box t hd
      subst hb
      exact Or.inl ⟨t, rfl, by simp [Option.getD_some, hd]⟩
    | none =>
      refine Or.inr (Or.inr ⟨box, rfl, downcast_eq_none k box hd, ?_⟩)
      simp only [Option.getD_some, hd]
      rw [mapInsert_self k box w.components hm]

theorem add_component_entities (k : κ) (e : EntityId) (v : V k) (w : World κ V) :
    (w.add_component k e v).entities = w.entities := by
  rcases add_component_cases k e v w with ⟨t, _, hw⟩ | ⟨_, hw⟩ | ⟨box, _, _, hw⟩ <;>
    rw [hw]

theorem add_component_next (k : κ) (e : EntityId) (v : V k) (w : World κ V) :
    (w.add_component k e v).next_entity_id = w.next_entity_id := by
  rcases add_component_cases k e v w with ⟨t, _, hw⟩ | ⟨_, hw⟩ | ⟨box, _, _, hw⟩ <;>
    rw [hw]

/-- Last-write-wins: after `add_component`, looking the same pair up
succeeds with the inserted value — provided the storage is well-tagged
(on a tag mismatch the source silently drops the value). -/
theorem get_component_add_self (k : κ) (e : EntityId) (v : V k) (w : World κ V)
    (hw : WellTagged w) :
    (w.add_component k e v).get_component k e = some v := by
  rcases add_component_cases k e v w with ⟨t, hm, hweq⟩ | ⟨hm, hweq⟩ | ⟨box, hm, hbox, _⟩
  · rw [hweq]
    simp [World.get_component, mapGet_mapInsert_self, downcast_self]
  · rw [hweq]
    simp [World.get_component, mapGet_mapInsert_self, downcast_self, mapGet]
  · exact absurd (hw (k, box) (mem_of_mapGet_eq_some k box w.components hm)) hbox

/-- Frame property of `add_component`: any other `(kind, entity)` slot
reads the same before and after (for every world, well-tagged or not). -/
theorem get_component_add_ne (k k' : κ) (e e' : EntityId) (v : V k) (w : World κ V)
    (h : k' ≠ k ∨ e' ≠ e) :
    (w.add_component k e v).get_component k' e' = w.get_component k' e' := by
  rcases add_component_cases k e v w with ⟨t, hm, hweq⟩ | ⟨hm, hweq⟩ | ⟨box, hm, hbox, hweq⟩
  · rw [hweq]
    by_cases hk : k' = k
    · subst hk
      have he : e' ≠ e := h.resolve_left (by simp)
      simp [World.get_component, mapGet_mapInsert_self, downcast_self, hm,
        mapGet_mapInsert_ne e e' v t he]
    · simp [World.get_component, mapGet_mapInsert_ne k k' _ w.components hk]
  · rw [hweq]
    by_cases hk : k' = k
    · subst hk
      have he : e' ≠ e := h.resolve_left (by simp)
      simp [World.get_component, mapGet_mapInsert_self, downcast_self, hm, mapGet, Ne.symm he]
    · simp [World.get_component, mapGet_mapInsert_ne k k' _ w.components hk]
  · rw [hweq]

/-- Case analysis of `remove_component`: either the kind's table exists
and the downcast succeeds, or nothing is stored for the pair and the world
is returned unchanged. -/
theorem remove_component_cases (k : κ) (e : EntityId) (w : World κ V) :
    (∃ t, mapGet k w.components = some (⟨k, t⟩ : AnyTable κ V) ∧
        w.remove_component k e =
          (mapGet e t,
            { w with components := mapInsert k ⟨k, (mapRemove e t).2⟩ w.components })) ∨
    (w.get_component k e = none ∧ w.remove_component k e = (none, w)) := by
  unfold World.remove_component
  cases hm : mapGet k w.components with
  | none => exact Or.inr ⟨by simp [World.get_component, hm], rfl⟩
  | some box =>
    cases hd : downcast k box with
    | some t =>
      have hb := downcast_eq_some k box t hd
      subst hb
      exact Or.inl ⟨t, rfl, by simp [hd, mapRemove_fst]⟩
    | none =>
      exact Or.inr ⟨by simp [World.get_component, hm, hd], by simp [hd]⟩

theorem remove_component_fst (k : κ) (e : EntityId) (w : World κ V) :
    (w.remove_component k e).1 = w.get_component k e := by
  rcases remove_component_cases k e w with ⟨t, hm, hweq⟩ | ⟨hg, hweq⟩
  · rw [hweq]
    simp [World.get_component, hm, downcast_self]
  · rw [hweq, hg]

theorem remove_component_entities (k : κ) (e : EntityId) (w : World κ V) :
    (w.remove_component k e).2.entities = w.entities := by
  rcases remove_component_cases k e w with ⟨t, _, hweq⟩ | ⟨_, hweq⟩ <;> rw [hweq]

theorem remove_component_next (k : κ) (e : EntityId) (w : World κ V) :
    (w.remove_component k e).2.next_entity_id = w.next_entity_id := by
  rcases remove_component_cases k e w with ⟨t, _, hweq⟩ | ⟨_, hweq⟩ <;> rw [hweq]

theorem get_component_remove_self (k : κ) (e : EntityId) (w : World κ V)
    (hnd : TablesNodup w) :
    (w.remove_component k e).2.get_component k e = none := by
  rcases remove_component_cases k e w with ⟨t, hm, hweq⟩ | ⟨hg, hweq⟩
  · rw [hweq]
    have ht : (t.map Prod.fst).Nodup :=
      hnd (k, ⟨k, t⟩) (mem_of_mapGet_eq_some k _ w.components hm)
    simp [World.get_component, mapGet_mapInsert_self, downcast_self,
      mapGet_mapRemove_self e t ht]
  · rw [hweq, hg]

theorem get_component_remove_ne (k k' : κ) (e e' : EntityId) (w : World κ V)
    (h : k' ≠ k ∨ e' ≠ e) :
    (w.remove_component k e).2.get_component k' e' = w.get_component k' e' := by
  rcases remove_component_cases k e w with ⟨t, hm, hweq⟩ | ⟨_, hweq⟩
  · rw [hweq]
    by_cases hk : k' = k
    · subst hk
      have he : e' ≠ e := h.resolve_left (by simp)
      simp [World.get_component, mapGet_mapInsert_self, downcast_self, hm,
        mapGet_mapRemove_ne e e' t he]
    · simp [World.get_component, mapGet_mapInsert_ne k k' _ w.components hk]
  · rw [hweq]

theorem mapGet_mapRemove_of_none {β : Type} [DecidableEq β] {α : Type}
    (b b' : β) (l : List (β × α)) (h : mapGet b l = none) :
    mapGet b (mapRemove b' l).2 = none := by
  rw [mapGet_none_iff] at h ⊢
  intro hmem
  exact h (((mapRemove_snd_sublist b' l).map Prod.fst).subset hmem)

theorem wellTagged_new : WellTagged (World.new : World κ V) := by
  intro p hp
  simp [World.new] at hp

theorem tablesNodup_new : TablesNodup (World.new : World κ V) := by
  intro p hp
  simp [World.new] at hp

theorem wellTagged_insert (w : World κ V) (k : κ) (t : List (EntityId × V k))
    (hw : WellTagged w) :
    WellTagged { w with components := mapInsert k ⟨k, t⟩ w.components } := by
  intro p hp
  rcases mem_mapInsert _ _ _ p hp with rfl | hp'
  · rfl
  · exact hw p hp'

theorem tablesNodup_insert (w : World κ V) (k : κ) (t : List (EntityId × V k))
    (hnd : TablesNodup w) (ht : (t.map Prod.fst).Nodup) :
    TablesNodup { w with components := mapInsert k ⟨k, t⟩ w.components } := by
  intro p hp
  rcases mem_mapInsert _ _ _ p hp with rfl | hp'
  · exact ht
  · exact hnd p hp'

theorem wellTagged_add (k : κ) (e : EntityId) (v : V k) (w : World κ V)
    (hw : WellTagged w) : WellTagged (w.add_component k e v) := by
  rcases add_component_cases k e v w with ⟨t, _, hweq⟩ | ⟨_, hweq⟩ | ⟨box, _, _, hweq⟩ <;>
    rw [hweq]
  · exact wellTagged_insert w k _ hw
  · exact wellTagged_insert w k _ hw
  · exact hw

theorem tablesNodup_add (k : κ) (e : EntityId) (v : V k) (w : World κ V)
    (hnd : TablesNodup w) : TablesNodup (w.add_component k e v) := by
  rcases add_component_cases k e v w with ⟨t, hm, hweq⟩ | ⟨_, hweq⟩ | ⟨box, _, _, hweq⟩ <;>
    rw [hweq]
  · exact tablesNodup_insert w k _ hnd
      (nodup_keys_mapInsert e v t (hnd (k, ⟨k, t⟩) (mem_of_mapGet_eq_some k _ w.components hm)))
  · exact tablesNodup_insert w k _ hnd (by simp)
  · exact hnd

theorem wellTagged_remove (k : κ) (e : EntityId) (w : World κ V)
    (hw : WellTagged w) : WellTagged (w.remove_component k e).2 := by
  rcases remove_component_cases k e w with ⟨t, _, hweq⟩ | ⟨_, hweq⟩ <;> rw [hweq]
  · exact wellTagged_insert w k _ hw
  · exact hw

theorem tablesNodup_remove (k : κ) (e : EntityId) (w : World κ V)
    (hnd : TablesNodup w) : TablesNodup (w.remove_component k e).2 := by
  rcases remove_component_cases k e w with ⟨t, hm, hweq⟩ | ⟨_, hweq⟩ <;> rw [hweq]
  · refine tablesNodup_insert w k _ hnd ?_
    have ht : (t.map Prod.fst).Nodup :=
      hnd (k, ⟨k, t⟩) (mem_of_mapGet_eq_some k _ w.components hm)
    exact ht.sublist ((mapRemove_snd_sublist e t).map Prod.fst)
  · exact hnd

theorem wellTagged_create (w : World κ V) (hw : WellTagged w) :
    WellTagged w.create_entity.2 := hw

theorem tablesNodup_create (w : World κ V) (hnd : TablesNodup w) :
    TablesNodup w.create_entity.2 := hnd

theorem wellTagged_despawn (e : EntityId) (w : World κ V) (hw : WellTagged w) :
    WellTagged (w.despawn e) := hw

theorem tablesNodup_despawn (e : EntityId) (w : World κ V) (hnd : TablesNodup w) :
    TablesNodup (w.despawn e) := hnd

/-- Every reachable world is well-tagged with duplicate-free tables. -/
theorem reachable_inv (w : World κ V) (h : Reachable w) :
    WellTagged w ∧ TablesNodup w := by
  induction h with
  | new => exact ⟨wellTagged_new, tablesNodup_new⟩
  | create w' _ ih => exact ⟨wellTagged_create w' ih.1, tablesNodup_create w' ih.2⟩
  | add w' k e v _ ih => exact ⟨wellTagged_add k e v w' ih.1, tablesNodup_add k e v w' ih.2⟩
  | remove w' k e _ ih => exact ⟨wellTagged_remove k e w' ih.1, tablesNodup_remove k e w' ih.2⟩
  | despawn w' e _ ih => exact ⟨wellTagged_despawn e w' ih.1, tablesNodup_despawn e w' ih.2⟩

/-- Case analysis of `query`: the table exists with a matching tag, or the
query is empty and every lookup of that kind is absent. -/
theorem query_cases (k : κ) (w : World κ V) :
    (∃ t, mapGet k w.components = some (⟨k, t⟩ : AnyTable κ V) ∧ w.query k = t ∧
        ∀ e, w.get_component k e = mapGet e t) ∨
    (w.query k = [] ∧ ∀ e, w.get_component k e = none) := by
  cases hm : mapGet k w.components with
  | none => exact Or.inr ⟨by simp [World.query, hm], fun e => by simp [World.get_component, hm]⟩
  | some box =>
    cases hd : downcast k box with
    | some t =>
      have hb := downcast_eq_some k box t hd
      subst hb
      exact Or.inl ⟨t, rfl, by simp [World.query, hm, hd],
        fun e => by simp [World.get_component, hm, hd]⟩
    | none =>
      exact Or.inr ⟨by simp [World.query, hm, hd],
        fun e => by simp [World.get_component, hm, hd]⟩

theorem runOps_snd (op : Op κ V) (ops : List (Op κ V)) (w : World κ V) :
    (runOps (op :: ops) w).2 = (runOps ops (op.step w)).2 := by
  cases op <;> simp [runOps, Op.step]

/-- The identifiers handed out by the `create_entity` calls of an arbitrary
operation sequence: the counter is only ever touched by `create_entity`,
which returns it and increments it modulo `2^32`. -/
theorem runOps_ids (ops : List (Op κ V)) (w : World κ V)
    (hw : w.next_entity_id < U32) :
    (runOps ops w).1 =
      (List.range (countCreates ops)).map fun i => (w.next_entity_id + i) % U32 := by
  induction ops generalizing w with
  | nil => simp [runOps, countCreates]
  | cons op ops ih =>
    cases op with
    | create =>
      have h2 : w.create_entity.2.next_entity_id < U32 := by
        rw [create_entity_next]
        exact Nat.mod_lt _ (by simp [U32])
      have hfun : ∀ i : Nat,
          ((w.next_entity_id + 1) % U32 + i) % U32 = (w.next_entity_id + (i + 1)) % U32 := by
        intro i
        rw [Nat.mod_add_mod]
        congr 1
        omega
      simp only [runOps, countCreates]
      rw [ih _ h2, List.range_succ_eq_map]
      simp only [create_entity_fst, create_entity_next, List.map_cons, List.map_map]
      refine List.cons_eq_cons.mpr ⟨?_, ?_⟩
      · rw [Nat.add_zero, Nat.mod_eq_of_lt hw]
      · simp [Function.comp, hfun]
    | add k e v =>
      simp only [runOps, countCreates, Op.step]
      rw [ih _ (by rw [add_component_next]; exact hw)]
      simp [add_component_next]
    | remove k e =>
      simp only [runOps, countCreates, Op.step]
      rw [ih _ (by rw [remove_component_next]; exact hw)]
      simp [remove_component_next]
    | despawn e =>
      simp only [runOps, countCreates, Op.step]
      rw [ih _ (by rw [despawn_next]; exact hw)]
      simp [despawn_next]

/-- A single non-`add (k, e)` operation cannot make `(e, k)` present. -/
theorem get_component_none_step (k : κ) (e : EntityId) (op : Op κ V) (w : World κ V)
    (hop : isAddTo k e op = false) (hg : w.get_component k e = none) :
    (op.step w).get_component k e = none := by
  cases op with
  | create => simpa [Op.step, get_component_create] using hg
  | add k' e' v =>
    have h : ¬(k' = k ∧ e' = e) := by simpa [isAddTo] using hop
    have h' : k ≠ k' ∨ e ≠ e' := by
      rcases not_and_or.mp h with h1 | h1
      · exact Or.inl (Ne.symm h1)
      · exact Or.inr (Ne.symm h1)
    rw [Op.step, get_component_add_ne k' k e' e v w h']
    exact hg
  | remove k' e' =>
    rw [Op.step]
    rcases remove_component_cases k' e' w with ⟨t, hm, hweq⟩ | ⟨_, hweq⟩
    · rw [hweq]
      by_cases hk : k = k'
      · subst hk
        simp only [World.get_component, hm, Option.bind_eq_bind, Option.some_bind,
          downcast_self] at hg
        simp [World.get_component, mapGet_mapInsert_self, downcast_self,
          mapGet_mapRemove_of_none e e' t hg]
      · simpa [World.get_component, mapGet_mapInsert_ne k' k _ w.components hk] using hg
    · rw [hweq]
      exact hg
  | despawn e' => simpa [Op.step, get_component_despawn] using hg

/-- Across a whole operation sequence containing no `add_component` for
`(e, k)`, the pair stays absent. -/
theorem get_component_none_runOps (k : κ) (e : EntityId) (ops : List (Op κ V))
    (w : World κ V) (hops : ∀ op ∈ ops, isAddTo k e op = false)
    (hg : w.get_component k e = none) :
    (runOps ops w).2.get_component k e = none := by
  induction ops generalizing w with
  | nil => simpa [runOps] using hg
  | cons op ops ih =>
    rw [runOps_snd]
    exact ih (op.step w) (fun op' h' => hops op' (List.mem_cons_of_mem _ h'))
      (get_component_none_step k e op w (hops op (List.mem_cons_self _ _)) hg)

theorem countCreates_replicate (n : Nat) :
    countCreates (List.replicate n (Op.create : Op κ V)) = n := by
  induction n with
  | zero => rfl
  | succ m ih => simp [List.replicate_succ, countCreates, ih]

/-- Applying a batch of updates of one kind does not disturb an entity that
is not among the updated keys. -/
theorem foldl_add_frame (k : κ) (ups : List (EntityId × V k)) (w : World κ V)
    (e : EntityId) (he : e ∉ ups.map Prod.fst) :
    (ups.foldl (fun acc u => acc.add_component k u.1 u.2) w).get_component k e =
      w.get_component k e := by
  induction ups generalizing w with
  | nil => rfl
  | cons u rest ih =>
    simp only [List.map_cons, List.mem_cons, not_or] at he
    rw [List.foldl_cons, ih _ he.2, get_component_add_ne k k u.1 e u.2 w (Or.inr he.1)]

/-- Applying a batch of updates with pairwise distinct keys stores exactly
the recorded value for each updated entity. -/
theorem foldl_add_mem (k : κ) (ups : List (EntityId × V k)) (w : World κ V)
    (hw : WellTagged w) (hnd : (ups.map Prod.fst).Nodup) (e : EntityId) (v : V k)
    (hmem : (e, v) ∈ ups) :
    (ups.foldl (fun acc u => acc.add_component k u.1 u.2) w).get_component k e =
      some v := by
  induction ups generalizing w with
  | nil => simp at hmem
  | cons u rest ih =>
    obtain ⟨e', v'⟩ := u
    simp only [List.map_cons, List.nodup_cons] at hnd
    rw [List.foldl_cons]
    rcases List.mem_cons.mp hmem with heq | hmem'
    · have he : e = e' ∧ v = v' := by simpa using heq
      obtain ⟨rfl, rfl⟩ := he
      rw [foldl_add_frame k rest _ e hnd.1]
      exact get_component_add_self k e v w hw
    · exact ih _ (wellTagged_add k e' v' w hw) hnd.2 hmem'

/-- `filterMap` with a key-preserving function keeps keys a sublist. -/
theorem keys_filterMap_sublist {α α' : Type} (f : EntityId × α → Option (EntityId × α'))
    (hf : ∀ p q, f p = some q → q.1 = p.1) (l : List (EntityId × α)) :
    ((l.filterMap f).map Prod.fst).Sublist (l.map Prod.fst) := by
  induction l with
  | nil => simp
  | cons p rest ih =>
    cases hc : f p with
    | none =>
      simp only [List.filterMap_cons, hc, List.map_cons]
      exact ih.trans (List.sublist_cons_self _ _)
    | some q =>
      simp only [List.filterMap_cons, hc, List.map_cons, hf p q hc]
      exact ih.cons₂ _

end ECSLemmas

/-! The claims. -/

/-- C1: for every reachable world, entity id `e`, kind `k` and value `v`,
`add_component` for `(e, k)` followed directly by `get_component` of the
same kind on the same entity returns exactly the inserted value: the most
recent insert for the pair wins, overwriting any prior value, with no
duplicate entry and no error. -/
theorem C1_add_then_get (κ : Type) [DecidableEq κ] (V : κ → Type) (w : World κ V)
    (k : κ) (e : EntityId) (v : V k) (h : Reachable w) :
    (w.add_component k e v).get_component k e = some v :=
  get_component_add_self k e v w (reachable_inv w h).1

/-- C1 witness: entity 5 already holds value 3 of kind 0; re-adding value 7
overwrites it and the lookup returns 7. -/
theorem C1_add_then_get_witness :
    Reachable ((World.new : World Nat fun _ => Nat).add_component 0 5 3) ∧
      (((World.new : World Nat fun _ => Nat).add_component 0 5 3).add_component 0 5 7).get_component
        0 5 = some 7 :=
  ⟨Reachable.add World.new 0 5 3 Reachable.new,
    C1_add_then_get Nat (fun _ => Nat) _ 0 5 7 (Reachable.add World.new 0 5 3 Reachable.new)⟩

/-- C2: for every reachable world and kind `k`, `query` yields exactly the
pairs `(e, v)` with `get_component k e = some v`, each entity at most once;
and a kind whose table was never created yields the empty sequence (not an
error). -/
theorem C2_query_exact (κ : Type) [DecidableEq κ] (V : κ → Type) (w : World κ V)
    (k : κ) (h : Reachable w) :
    (∀ (e : EntityId) (v : V k), (e, v) ∈ w.query k ↔ w.get_component k e = some v) ∧
      ((w.query k).map Prod.fst).Nodup ∧
      (mapGet k w.components = none → w.query k = []) := by
  have hnd := (reachable_inv w h).2
  rcases query_cases k w with ⟨t, hm, hq, hg⟩ | ⟨hq, hg⟩
  · have ht : (t.map Prod.fst).Nodup :=
      hnd (k, ⟨k, t⟩) (mem_of_mapGet_eq_some k _ w.components hm)
    refine ⟨fun e v => ?_, by rw [hq]; exact ht,
      fun hnone => by rw [hm] at hnone; cases hnone⟩
    rw [hq, hg e]
    exact ⟨mapGet_eq_some_of_mem e v t ht, mem_of_mapGet_eq_some e v t⟩
  · exact ⟨fun e v => by rw [hq, hg e]; simp, by rw [hq]; exact List.nodup_nil,
      fun _ => hq⟩

/-- C2 witness: in a world holding value 5 of kind 0 on entity 1, the pair
is produced by `query`; and in a world that only ever saw kind 1, querying
kind 0 (table never created) gives the empty sequence. -/
theorem C2_query_exact_witness :
    Reachable ((World.new : World Nat fun _ => Nat).add_component 0 1 5) ∧
      (1, 5) ∈ ((World.new : World Nat fun _ => Nat).add_component 0 1 5).query 0 ∧
      ((World.new : World Nat fun _ => Nat).add_component 1 0 6).query 0 = [] :=
  ⟨Reachable.add World.new 0 1 5 Reachable.new,
    ((C2_query_exact Nat (fun _ => Nat) _ 0
        (Reachable.add World.new 0 1 5 Reachable.new)).1 1 5).mpr (by decide),
    (C2_query_exact Nat (fun _ => Nat) _ 0
        (Reachable.add World.new 1 0 6 Reachable.new)).2.2 (by decide)⟩

/-- C3 (amended): for every operation sequence from the initial world
containing at most 2^32 `create_entity` calls — interleaved arbitrarily
with `add_component`, `remove_component` and `despawn` — the returned
identifiers are exactly `0, 1, 2, ...` in order: strictly increasing,
pairwise unique, starting at 0, incrementing by 1, never reused, and the
(total) `create_entity` never fails.  The unbounded claim is false: the
`u32` counter wraps after 2^32 allocations (see the counterexample). -/
theorem C3_create_ids (κ : Type) [DecidableEq κ] (V : κ → Type)
    (ops : List (Op κ V)) (h : countCreates ops ≤ U32) :
    (runOps ops (World.new : World κ V)).1 = List.range (countCreates ops) ∧
      List.Pairwise (· < ·) (runOps ops (World.new : World κ V)).1 := by
  have h0 : (World.new : World κ V).next_entity_id < U32 := by
    simp [World.new, U32]
  have hi : ∀ i ∈ List.range (countCreates ops),
      ((World.new : World κ V).next_entity_id + i) % U32 = id i := by
    intro i hmem
    have hlt : i < U32 := lt_of_lt_of_le (List.mem_range.mp hmem) h
    show (0 + i) % U32 = id i
    simp [Nat.mod_eq_of_lt hlt]
  have heq : (runOps ops (World.new : World κ V)).1 = List.range (countCreates ops) :=
    calc (runOps ops (World.new : World κ V)).1
        = (List.range (countCreates ops)).map fun i =>
            ((World.new : World κ V).next_entity_id + i) % U32 := runOps_ids ops World.new h0
      _ = (List.range (countCreates ops)).map id := List.map_congr_left hi
      _ = List.range (countCreates ops) := List.map_id _
  exact ⟨heq, by rw [heq]; exact List.pairwise_lt_range _⟩

/-- C3 witness: three creates interleaved with an add and a despawn hand
out exactly the ids 0, 1, 2. -/
theorem C3_create_ids_witness :
    countCreates [Op.create, Op.add 0 0 7, Op.create, Op.despawn 0,
        (Op.create : Op Nat fun _ => Nat)] ≤ U32 ∧
      (runOps [Op.create, Op.add 0 0 7, Op.create, Op.despawn 0,
          (Op.create : Op Nat fun _ => Nat)] (World.new : World Nat fun _ => Nat)).1 =
        [0, 1, 2] :=
  ⟨by decide,
    (C3_create_ids Nat (fun _ => Nat) _ (by decide)).1.trans (by decide)⟩

/-- C3 counterexample: after 2^32 + 1 `create_entity` calls the `u32`
counter has wrapped and id 0 has been handed out twice — the returned
identifiers are not pairwise unique, refuting the claim for arbitrary call
sequences. -/
theorem C3_counterexample :
    ¬ ((runOps (List.replicate (U32 + 1) (Op.create : Op Nat fun _ => Nat))
        (World.new : World Nat fun _ => Nat)).1).Nodup := by
  intro hnd
  have h0 : (World.new : World Nat fun _ => Nat).next_entity_id < U32 := by
    simp [World.new, U32]
  have hids := runOps_ids (List.replicate (U32 + 1) Op.create)
    (World.new : World Nat fun _ => Nat) h0
  rw [countCreates_replicate] at hids
  rw [hids] at hnd
  have h01 : (0 : Nat) ∈ List.range (U32 + 1) := by simp
  have h02 : U32 ∈ List.range (U32 + 1) := by simp
  have heq : ((World.new : World Nat fun _ => Nat).next_entity_id + 0) % U32 =
      ((World.new : World Nat fun _ => Nat).next_entity_id + U32) % U32 := by
    show (0 + 0) % U32 = (0 + U32) % U32
    simp [Nat.mod_self]
  have h0U := List.inj_on_of_nodup_map hnd h01 h02 heq
  norm_num [U32] at h0U

/-- C4: if `(e, k)` is stored, then after `despawn e` the entity is gone
from the live-entity list while the lookup still returns the old value and
every component table is entirely unchanged (orphan retention). -/
theorem C4_despawn_orphan (κ : Type) [DecidableEq κ] (V : κ → Type) (w : World κ V)
    (k : κ) (e : EntityId) (v : V k) (h : w.get_component k e = some v) :
    e ∉ (w.despawn e).entities ∧ (w.despawn e).get_component k e = some v ∧
      (w.despawn e).components = w.components := by
  refine ⟨?_, by rw [get_component_despawn]; exact h, rfl⟩
  simp [World.despawn, List.mem_filter]

/-- C4 witness: entity 3 holds value 9 of kind 0; after `despawn 3` it is
not live but the value is still retrievable. -/
theorem C4_despawn_orphan_witness :
    ((World.new : World Nat fun _ => Nat).add_component 0 3 9).get_component 0 3 = some 9 ∧
      3 ∉ (((World.new : World Nat fun _ => Nat).add_component 0 3 9).despawn 3).entities ∧
      (((World.new : World Nat fun _ => Nat).add_component 0 3 9).despawn 3).get_component 0 3 =
        some 9 :=
  ⟨by decide,
    (C4_despawn_orphan Nat (fun _ => Nat) _ 0 3 9 (by decide)).1,
    (C4_despawn_orphan Nat (fun _ => Nat) _ 0 3 9 (by decide)).2.1⟩

/-- C5: `remove_component` returns exactly what `get_component` would have
returned (the stored value if present, absent otherwise), and afterwards
the lookup for the pair is absent. -/
theorem C5_remove_roundtrip (κ : Type) [DecidableEq κ] (V : κ → Type) (w : World κ V)
    (k : κ) (e : EntityId) (h : Reachable w) :
    (w.remove_component k e).1 = w.get_component k e ∧
      (w.remove_component k e).2.get_component k e = none :=
  ⟨remove_component_fst k e w,
    get_component_remove_self k e w (reachable_inv w h).2⟩

/-- C5 witness: entity 2 holds value 5 of kind 0; `remove_component`
returns it and the subsequent lookup is absent. -/
theorem C5_remove_roundtrip_witness :
    Reachable ((World.new : World Nat fun _ => Nat).add_component 0 2 5) ∧
      (((World.new : World Nat fun _ => Nat).add_component 0 2 5).remove_component 0 2).1 =
        some 5 ∧
      (((World.new : World Nat fun _ => Nat).add_component 0 2 5).remove_component
          0 2).2.get_component 0 2 = none :=
  ⟨Reachable.add World.new 0 2 5 Reachable.new,
    (C5_remove_roundtrip Nat (fun _ => Nat) _ 0 2
        (Reachable.add World.new 0 2 5 Reachable.new)).1.trans (by decide),
    (C5_remove_roundtrip Nat (fun _ => Nat) _ 0 2
        (Reachable.add World.new 0 2 5 Reachable.new)).2⟩

/-- C6: over any sequence of public operations from the initial world that
never performs `add_component` for `(e, k)` — the entity may be
never-allocated, live, or already despawned — `get_component k e` returns
absent and `has_component k e` returns false; all involved operations are
total functions (absence is the only failure mode). -/
theorem C6_never_added (κ : Type) [DecidableEq κ] (V : κ → Type) (k : κ)
    (e : EntityId) (ops : List (Op κ V))
    (hops : ∀ op ∈ ops, isAddTo k e op = false) :
    (runOps ops (World.new : World κ V)).2.get_component k e = none ∧
      (runOps ops (World.new : World κ V)).2.has_component k e = false := by
  have h := get_component_none_runOps k e ops World.new hops rfl
  exact ⟨h, by simp [World.has_component, h]⟩

/-- C6 witness: a trace that creates entity 0, adds it a component of a
different kind, despawns it and removes a never-present pair; `(0, kind 0)`
stays absent. -/
theorem C6_never_added_witness :
    (runOps [Op.create, Op.add 1 0 7, Op.despawn 0,
          (Op.remove 0 0 : Op Nat fun _ => Nat)]
        (World.new : World Nat fun _ => Nat)).2.get_component 0 0 = none ∧
      (runOps [Op.create, Op.add 1 0 7, Op.despawn 0,
          (Op.remove 0 0 : Op Nat fun _ => Nat)]
        (World.new : World Nat fun _ => Nat)).2.has_component 0 0 = false :=
  C6_never_added Nat (fun _ => Nat) 0 0
    [Op.create, Op.add 1 0 7, Op.despawn 0, Op.remove 0 0] (by decide)

/-- C7: in every reachable world the box stored under each type key is
tagged with exactly that key (it is the table of that key's component
type), so every internal `downcast` in the storage engine succeeds — in
particular the failed-downcast branch of `add_component`, which would
silently drop the value, is unreachable, and the engine has no panic
path. -/
theorem C7_downcasts_succeed (κ : Type) [DecidableEq κ] (V : κ → Type)
    (w : World κ V) (h : Reachable w) :
    WellTagged w ∧
      ∀ (k : κ) (box : AnyTable κ V), mapGet k w.components = some box →
        (downcast k box).isSome = true := by
  refine ⟨(reachable_inv w h).1, fun k box hm => ?_⟩
  have htag := (reachable_inv w h).1 (k, box) (mem_of_mapGet_eq_some k box w.components hm)
  obtain ⟨kb, t⟩ := box
  cases htag
  simp [downcast_self]

/-- C7 witness: a concrete reachable world with one populated table. -/
theorem C7_downcasts_succeed_witness :
    WellTagged ((World.new : World Nat fun _ => Nat).add_component 0 0 5) ∧
      (downcast 0 (⟨0, [(0, 5)]⟩ : AnyTable Nat fun _ => Nat)).isSome = true :=
  ⟨(C7_downcasts_succeed Nat (fun _ => Nat) _
      (Reachable.add World.new 0 0 5 Reachable.new)).1,
    (C7_downcasts_succeed Nat (fun _ => Nat) _
      (Reachable.add World.new 0 0 5 Reachable.new)).2 0 ⟨0, [(0, 5)]⟩ (by decide)⟩

/-- C8 (amended): `spawn()` with no `.with(...)` followed by `.build()`
returns exactly the id `create_entity` would have returned, present in the
live-entity list, and adds no component: every `get_component` on it
returns exactly what it returned before the call — hence absent unless the
id already carried an orphan component written to the not-yet-allocated id
(the unqualified zero-components claim fails on such reachable worlds, see
the counterexample). -/
theorem C8_spawn_build (κ : Type) [DecidableEq κ] (V : κ → Type) (w : World κ V) :
    w.spawn.build = w.create_entity.1 ∧
      w.spawn.build ∈ w.spawn.world.entities ∧
      w.spawn.world = w.create_entity.2 ∧
      ∀ k : κ, w.spawn.world.get_component k w.spawn.build =
        w.get_component k w.spawn.build := by
  refine ⟨rfl, ?_, rfl, fun k => rfl⟩
  simp [World.spawn, EntityBuilder.build, World.create_entity]

/-- C8 counterexample: `add_component` performs no existence check, so a
reachable world can already hold a component for the id the next `spawn`
will allocate; the freshly spawned entity then carries a component, so the
universally quantified zero-components claim is false. -/
theorem C8_counterexample :
    Reachable ((World.new : World Nat fun _ => Nat).add_component 0 0 5) ∧
      ((World.new : World Nat fun _ => Nat).add_component 0 0 5).spawn.build = 0 ∧
      ((World.new : World Nat fun _ => Nat).add_component 0 0 5).spawn.world.get_component 0
        ((World.new : World Nat fun _ => Nat).add_component 0 0 5).spawn.build = some 5 :=
  ⟨Reachable.add World.new 0 0 5 Reachable.new, by decide, by decide⟩

/-- C10: `add_component k e v` modifies only the `(e, k)` slot: every other
`(entity, kind)` pair reads the same before and after, and the live-entity
list and the next-entity-id counter are unchanged. -/
theorem C10_add_frame (κ : Type) [DecidableEq κ] (V : κ → Type) (w : World κ V)
    (k : κ) (e : EntityId) (v : V k) :
    (w.add_component k e v).entities = w.entities ∧
      (w.add_component k e v).next_entity_id = w.next_entity_id ∧
      ∀ (k' : κ) (e' : EntityId), (k', e') ≠ (k, e) →
        (w.add_component k e v).get_component k' e' = w.get_component k' e' := by
  refine ⟨add_component_entities k e v w, add_component_next k e v w, fun k' e' h => ?_⟩
  refine get_component_add_ne k k' e e' v w ?_
  rcases eq_or_ne k' k with rfl | hk
  · exact Or.inr fun he => h (by rw [he])
  · exact Or.inl hk

/-- C10 witness: adding kind 0 to entity 0 leaves the slot (kind 1,
entity 0) of a populated world unchanged, and the entity list and counter
as they were. -/
theorem C10_add_frame_witness :
    ((1 : Nat), (0 : EntityId)) ≠ ((0 : Nat), (0 : EntityId)) ∧
      (((World.new : World Nat fun _ => Nat).add_component 1 0 9).add_component 0 0 5).get_component
          1 0 =
        ((World.new : World Nat fun _ => Nat).add_component 1 0 9).get_component 1 0 ∧
      (((World.new : World Nat fun _ => Nat).add_component 1 0 9).add_component 0 0 5).entities =
        ((World.new : World Nat fun _ => Nat).add_component 1 0 9).entities :=
  ⟨by decide,
    (C10_add_frame Nat (fun _ => Nat) _ 0 0 5).2.2 1 0 (by decide),
    (C10_add_frame Nat (fun _ => Nat) _ 0 0 5).1⟩

/-- C9: in any reachable world in which entity `A` holds a `Transform`
with position (0,0,0) and a `Velocity` with linear part (1,0,0), one tick
of `physics_system` with `dt = 0.5` leaves `A`'s `Transform` at position
(0.5, 0, 0). -/
theorem C9_physics_tick (w : World GKind GVal) (A : EntityId) (t : Transform)
    (vel : Velocity) (h : Reachable w)
    (ht : w.get_component GKind.transform A = some t)
    (hv : w.get_component GKind.velocity A = some vel)
    (hpos : t.position = ⟨0, 0, 0⟩) (hlin : vel.linear = ⟨1, 0, 0⟩) :
    ((physics_system (1/2 : ℚ) w).get_component GKind.transform A).map
      Transform.position = some ⟨1/2, 0, 0⟩ := by
  obtain ⟨hw, hnd⟩ := reachable_inv w h
  rcases query_cases GKind.velocity w with ⟨tv, hm, hq, hg⟩ | ⟨hq, hg⟩
  · have hmemq : (A, vel) ∈ w.query GKind.velocity := by
      rw [hq]
      exact mem_of_mapGet_eq_some A vel tv (by rw [← hg A]; exact hv)
    have hqnodup : ((w.query GKind.velocity).map Prod.fst).Nodup := by
      rw [hq]
      exact hnd (GKind.velocity, ⟨GKind.velocity, tv⟩)
        (mem_of_mapGet_eq_some GKind.velocity _ w.components hm)
    have hfkey : ∀ (p : EntityId × GVal GKind.velocity) (q : EntityId × GVal GKind.transform),
        ((w.get_component GKind.transform p.1).map fun transform =>
          (p.1, { transform with
                    position := transform.position.add (Vec3.mulScalar p.2.linear (1/2)),
                    rotation := transform.rotation.add (Vec3.mulScalar p.2.angular (1/2)) }))
          = some q → q.1 = p.1 := by
      intro p q hpq
      cases hmap : w.get_component GKind.transform p.1 with
      | none => rw [hmap] at hpq; cases hpq
      | some tr =>
        rw [hmap] at hpq
        cases hpq
        rfl
    have hmem : (A, ({ t with
        position := t.position.add (Vec3.mulScalar vel.linear (1/2)),
        rotation := t.rotation.add (Vec3.mulScalar vel.angular (1/2)) } :
          GVal GKind.transform)) ∈
        (w.query GKind.velocity).filterMap fun p =>
          (w.get_component GKind.transform p.1).map fun transform =>
            (p.1, { transform with
                      position := transform.position.add (Vec3.mulScalar p.2.linear (1/2)),
                      rotation := transform.rotation.add (Vec3.mulScalar p.2.angular (1/2)) }) := by
      refine List.mem_filterMap.mpr ⟨(A, vel), hmemq, ?_⟩
      rw [ht]
      rfl
    have hnds : (((w.query GKind.velocity).filterMap fun p =>
        (w.get_component GKind.transform p.1).map fun transform =>
          (p.1, { transform with
                    position := transform.position.add (Vec3.mulScalar p.2.linear (1/2)),
                    rotation := transform.rotation.add (Vec3.mulScalar p.2.angular (1/2)) }
            )).map Prod.fst).Nodup :=
      hqnodup.sublist (keys_filterMap_sublist _ hfkey _)
    have hmain := foldl_add_mem GKind.transform _ w hw hnds A _ hmem
    have hphys : (physics_system (1/2 : ℚ) w).get_component GKind.transform A =
        some { t with
          position := t.position.add (Vec3.mulScalar vel.linear (1/2)),
          rotation := t.rotation.add (Vec3.mulScalar vel.angular (1/2)) } := hmain
    rw [hphys, Option.map_some']
    refine congrArg some ?_
    show t.position.add (Vec3.mulScalar vel.linear (1/2)) = ⟨1/2, 0, 0⟩
    rw [hpos, hlin]
    norm_num [Vec3.add, Vec3.mulScalar, Vec3.mk.injEq]
  · rw [hg A] at hv
    cases hv

/-- C9 witness: the spec scenario itself — spawn an entity with the
default transform (position (0,0,0)) and linear velocity (1,0,0), run one
tick with dt = 0.5, and its position is (0.5, 0, 0). -/
theorem C9_physics_tick_witness :
    Reachable (((World.new : World GKind GVal).spawn.with' GKind.transform
        Transform.default).with' GKind.velocity ⟨⟨1, 0, 0⟩, ⟨0, 0, 0⟩⟩).world ∧
      ((physics_system (1/2 : ℚ)
          (((World.new : World GKind GVal).spawn.with' GKind.transform
              Transform.default).with' GKind.velocity
              ⟨⟨1, 0, 0⟩, ⟨0, 0, 0⟩⟩).world).get_component GKind.transform 0).map
        Transform.position = some ⟨1/2, 0, 0⟩ := by
  have hr0 : Reachable ((((World.new : World GKind GVal).create_entity.2).add_component
      GKind.transform 0 Transform.default).add_component GKind.velocity 0
      ⟨⟨1, 0, 0⟩, ⟨0, 0, 0⟩⟩) :=
    Reachable.add _ GKind.velocity 0 ⟨⟨1, 0, 0⟩, ⟨0, 0, 0⟩⟩
      (Reachable.add _ GKind.transform 0 Transform.default
        (Reachable.create _ Reachable.new))
  have hr : Reachable (((World.new : World GKind GVal).spawn.with' GKind.transform
      Transform.default).with' GKind.velocity ⟨⟨1, 0, 0⟩, ⟨0, 0, 0⟩⟩).world := hr0
  exact ⟨hr, C9_physics_tick _ 0 Transform.default ⟨⟨1, 0, 0⟩, ⟨0, 0, 0⟩⟩ hr
    (by decide) (by decide) rfl rfl⟩

end Qsi
